import Mathlib

/-!
Shallow embedding of `pyrtl/inputoutput.py`: the BLIF netlist parser's
semantic actions (`extract_inputs`, `extract_outputs`, `extract_cover`,
`extract_flop` from `input_from_blif`), the Verilog emitter
(`output_to_verilog` and its helpers) and the trivial-graph emitter
(`output_to_trivialgraph`).

Modelling conventions:
* A Python `print >> file, s` is one line appended to a `List String`
  (the line's text, without the newline character).
* Python sets of names (`clk_set`, `ff_clk_set`) are `List String` with
  membership-guarded insertion; the `edges` set of the graph emitter is a
  `List (Nat × Nat)` with membership-guarded insertion, and the
  `edge_names` dict is an association list where a new binding shadows an
  old one by being consulted first.
* The graph emitter iterates `sorted(...)` copies of `block.logic` and of
  the wirevector subsets — a fixed total order, modelled as the stored
  list order.  The Verilog emitter, by contrast, iterates the Python sets
  directly (`block.logic` at line 319, `wirevector_subset` results in the
  header: no `sorted()`), so their enumeration order is not a function of
  the circuit: a `Block`'s lists carry one such enumeration, and the same
  sets presented in a different order are a legitimate second run of that
  emitter over the same circuit.
-/

/-- Boolean expressions: the right-hand sides built by `extract_cover`
(`wire.Const`, `twire(name)`, `~`, `&`, `|`, `^`). -/
inductive BExpr where
  | const (b : Bool)
  | var (name : String)
  | notE (e : BExpr)
  | andE (e₁ e₂ : BExpr)
  | orE (e₁ e₂ : BExpr)
  | xorE (e₁ e₂ : BExpr)
  deriving Repr, DecidableEq

/-- Evaluate a cover expression under a valuation of signal names. -/
def BExpr.eval (v : String → Bool) : BExpr → Bool
  | .const b => b
  | .var n => v n
  | .notE e => !(e.eval v)
  | .andE a b => (a.eval v) && (b.eval v)
  | .orE a b => (a.eval v) || (b.eval v)
  | .xorE a b => Bool.xor (a.eval v) (b.eval v)

/-- Errors raised by `input_from_blif` helpers (`core.PyrtlError`). -/
inductive PyrtlError where
  | unsupportedCover
  deriving Repr, DecidableEq

/-- One `output_wire <<= expr` connection created by `extract_cover`. -/
structure Assign where
  dest : String
  expr : BExpr
  deriving Repr, DecidableEq

/-- Membership-guarded insertion, modelling Python's `set.add`. -/
def setAdd (s : List String) (x : String) : List String :=
  if x ∈ s then s else s ++ [x]

/-- The de-sugared `extract_cover` from `input_from_blif`: dispatch on the
literal cover-row list.  `netio` is the `.names` signal list; the state is
the `clk_set` accumulator.  Returns the updated `clk_set` and the list of
connections created (`twire` lazy wire creation is implicit: an `Assign`
names its wires). -/
def extract_cover (clkSet : List String) (netio : List String)
    (cover : List String) : Except PyrtlError (List String × List Assign) :=
  if cover = [] then
    .ok (clkSet, [⟨netio.getD 0 "", .const false⟩])
  else if cover = ["1"] then
    .ok (clkSet, [⟨netio.getD 0 "", .const true⟩])
  else if cover = ["1", "1"] then
    if netio.getD 1 "" ∈ clkSet then
      .ok (setAdd clkSet (netio.getD 0 ""), [])
    else if netio.getD 0 "" ∈ clkSet then
      .ok (setAdd clkSet (netio.getD 1 ""), [])
    else
      .ok (clkSet, [⟨netio.getD 1 "", .var (netio.getD 0 "")⟩])
  else if cover = ["0", "1"] then
    .ok (clkSet, [⟨netio.getD 1 "", .notE (.var (netio.getD 0 ""))⟩])
  else if cover = ["11", "1"] then
    .ok (clkSet, [⟨netio.getD 2 "",
      .andE (.var (netio.getD 0 "")) (.var (netio.getD 1 ""))⟩])
  else if cover = ["1-", "1", "-1", "1"] then
    .ok (clkSet, [⟨netio.getD 2 "",
      .orE (.var (netio.getD 0 "")) (.var (netio.getD 1 ""))⟩])
  else if cover = ["10", "1", "01", "1"] then
    .ok (clkSet, [⟨netio.getD 2 "",
      .xorE (.var (netio.getD 0 "")) (.var (netio.getD 1 ""))⟩])
  else if cover = ["1-0", "1", "-11", "1"] then
    .ok (clkSet, [⟨netio.getD 3 "",
      .orE (.andE (.var (netio.getD 0 "")) (.notE (.var (netio.getD 2 ""))))
           (.andE (.var (netio.getD 1 "")) (.var (netio.getD 2 "")))⟩])
  else
    .error .unsupportedCover

/-- The eight literal cover-row patterns that `extract_cover` recognises. -/
def coverTable : List (List String) :=
  [[], ["1"], ["1", "1"], ["0", "1"], ["11", "1"],
   ["1-", "1", "-1", "1"], ["10", "1", "01", "1"], ["1-0", "1", "-11", "1"]]

/-- Wire kinds of the PyRTL wirevector classes used by `inputoutput.py`. -/
inductive WireKind where
  | input
  | output
  | register
  | const (val : Nat)
  | plain
  deriving Repr, DecidableEq

/-- A wirevector: name, bitwidth and kind. -/
structure WireV where
  name : String
  bitwidth : Nat
  kind : WireKind
  deriving Repr, DecidableEq

instance : Inhabited WireV := ⟨⟨"", 0, .plain⟩⟩

/-- The Python regex substitution `re.sub(r'\[([0-9]+)\]$', '', x)`:
strip one trailing `[digits]` group (at least one digit) if present. -/
def stripIndex (s : String) : String :=
  match s.data.reverse with
  | ']' :: rest =>
    let digits := rest.takeWhile Char.isDigit
    if digits = [] then s
    else
      match rest.drop digits.length with
      | '[' :: before => ⟨before.reverse⟩
      | _ => s
  | _ => s

/-- The per-bit wire name `input_name + '[' + str(i) + ']'`. -/
def bitName (base : String) (i : Nat) : String :=
  base ++ "[" ++ toString i ++ "]"

/-- The `extract_inputs` closure of `input_from_blif`.  The loop body
updates `clk_set` and creates wires independently, so it is split into a
clock pass and a wire pass over the same `Counter` keys (modelled as the
stripped names deduplicated; the dict iteration order is a fixed
enumeration of the keys).  Returns the updated `clk_set` and the wires
added to the block, in creation order: for a merged vector group the
multi-bit `Input` followed by its per-bit wires (the `bit_wire <<=
wire_in[i]` select connections carry no information beyond the names and
are omitted).  `inputChunk` is the wire-creating part of the loop body
for one key. -/
def inputChunk (merge_io_vectors : Bool) (start_names : List String)
    (input_name : String) : List WireV :=
  let bitwidth := start_names.count input_name
  if input_name = "clk" then []
  else if !merge_io_vectors || bitwidth = 1 then
    [⟨input_name, 1, .input⟩]
  else
    ⟨input_name, bitwidth, .input⟩ ::
      (List.range bitwidth).map (fun i => ⟨bitName input_name i, 1, .plain⟩)

/-- The `extract_inputs` closure (see `inputChunk`). -/
def extract_inputs (merge_io_vectors : Bool) (clkSet : List String)
    (input_list : List String) : List String × List WireV :=
  let start_names := input_list.map stripIndex
  let keys := start_names.dedup
  (keys.foldl (fun cs input_name =>
      if input_name = "clk" then setAdd cs input_name else cs) clkSet,
   (keys.map (inputChunk merge_io_vectors start_names)).flatten)

/-- The `extract_outputs` closure of `input_from_blif`.  Same shape as
`extract_inputs` but with no clock special-case; for a merged group the
`wire_out <<= concat(*bit_list)` connection is recorded as the pair
(output name, bit names in index order).  `outputChunk` is the
wire-creating part of the loop body for one key, `outputConnChunk` the
concat connection it makes. -/
def outputChunk (merge_io_vectors : Bool) (start_names : List String)
    (output_name : String) : List WireV :=
  let bitwidth := start_names.count output_name
  if !merge_io_vectors || bitwidth = 1 then
    [⟨output_name, 1, .output⟩]
  else
    ⟨output_name, bitwidth, .output⟩ ::
      (List.range bitwidth).map (fun i => ⟨bitName output_name i, 1, .plain⟩)

/-- The concat connections made for one `Counter` key (see `outputChunk`). -/
def outputConnChunk (merge_io_vectors : Bool) (start_names : List String)
    (output_name : String) : List (String × List String) :=
  let bitwidth := start_names.count output_name
  if !merge_io_vectors || bitwidth = 1 then []
  else [(output_name, (List.range bitwidth).map (bitName output_name))]

/-- The `extract_outputs` closure (see `outputChunk`). -/
def extract_outputs (merge_io_vectors : Bool) (output_list : List String) :
    List WireV × List (String × List String) :=
  let start_names := output_list.map stripIndex
  let keys := start_names.dedup
  ((keys.map (outputChunk merge_io_vectors start_names)).flatten,
   (keys.map (outputConnChunk merge_io_vectors start_names)).flatten)

/-- Result of `extract_flop`: the updated `ff_clk_set`, the `Register`
wire created, the name feeding `flop.next` and the `flop_output <<= flop`
connection (Q name, register name). -/
structure FlopResult where
  ffClkSet : List String
  reg : WireV
  regNext : String
  qConn : String × String
  deriving Repr, DecidableEq

/-- The `extract_flop` closure of `input_from_blif`, on the `C`, `D`, `Q`
formals common to both flop forms. -/
def extract_flop (ffClkSet : List String) (C D Q : String) : FlopResult :=
  { ffClkSet := if C ∈ ffClkSet then ffClkSet else setAdd ffClkSet C
    reg := ⟨Q ++ "_reg", 1, .register⟩
    regNext := D
    qConn := (Q, Q ++ "_reg") }

/-- An async flop command (`.subckt $_DFF_PN0_/$_DFF_PP0_ C= R= D= Q=`):
`extract_flop` never reads the reset formal `R`. -/
def extract_flop_async (ffClkSet : List String) (C R D Q : String) : FlopResult :=
  extract_flop ffClkSet C D Q

/-- A logic net: operation character, optional parameter (the bit-select
index list), argument wires and destination wires, as in
`core.LogicNet`. -/
structure LogicNet where
  op : Char
  op_param : Option (List Nat)
  args : List WireV
  dests : List WireV
  deriving Repr, DecidableEq

/-- A block: its wirevectors (in creation order) and its logic nets (in
the fixed iteration order used by the emitters). -/
structure Block where
  wirevectors : List WireV
  logic : List LogicNet
  deriving Repr, DecidableEq

/-- `block.wirevector_subset(kind)` as an order-preserving filter. -/
def Block.subsetBy (block : Block) (p : WireKind → Bool) : List WireV :=
  block.wirevectors.filter (fun w => p w.kind)

def WireKind.isInput : WireKind → Bool
  | .input => true
  | _ => false

def WireKind.isOutput : WireKind → Bool
  | .output => true
  | _ => false

def WireKind.isRegister : WireKind → Bool
  | .register => true
  | _ => false

def WireKind.isConst : WireKind → Bool
  | .const _ => true
  | _ => false

/-- `const.val` of a constant wire (0 for non-constants, unreachable). -/
def WireV.constVal (w : WireV) : Nat :=
  match w.kind with
  | .const v => v
  | _ => 0

/-- `_verilog_vector_decl`: empty for a 1-bit wire, else `[n-1:0]`. -/
def _verilog_vector_decl (w : WireV) : String :=
  if w.bitwidth = 1 then "" else "[" ++ toString (w.bitwidth - 1) ++ ":0]"

/-- Name of `net.dests[0]`. -/
def LogicNet.dname (net : LogicNet) : String := (net.dests.getD 0 default).name

/-- Name of `net.args[i]`. -/
def LogicNet.aname (net : LogicNet) (i : Nat) : String := (net.args.getD i default).name

/-- Errors raised by the Verilog emitter. -/
inductive VerilogErr where
  | memoriesNotSupported
  | internalError
  deriving Repr, DecidableEq

/-- The per-net body of the loop in `_to_verilog_combinational`: the lines
printed for one net (none for a register), or the error raised. -/
def emitNet (net : LogicNet) : Except VerilogErr (List String) :=
  if net.op = 'w' ∨ net.op = '~' then
    .ok ["    assign " ++ net.dname ++ " = "
      ++ (if net.op = 'w' then "" else String.singleton net.op) ++ net.aname 0 ++ ";"]
  else if net.op ∈ ['&', '|', '^', '+', '-', '*', '<', '>'] then
    .ok ["    assign " ++ net.dname ++ " = " ++ net.aname 0 ++ " "
      ++ String.singleton net.op ++ " " ++ net.aname 1 ++ ";"]
  else if net.op = '=' then
    .ok ["    assign " ++ net.dname ++ " = " ++ net.aname 0 ++ " == " ++ net.aname 1 ++ ";"]
  else if net.op = 'x' then
    .ok ["    assign " ++ net.dname ++ " = " ++ net.aname 0 ++ " ? "
      ++ net.aname 2 ++ " : " ++ net.aname 1 ++ ";"]
  else if net.op = 'c' then
    .ok ["    assign " ++ net.dname ++ " = \x7b"
      ++ String.intercalate ", " (net.args.map WireV.name) ++ "\x7d;"]
  else if net.op = 's' then
    .ok ["    assign " ++ net.dname ++ " = \x7b"
      ++ String.intercalate ", "
        ((net.op_param.getD []).map (fun i => net.aname 0 ++ "[" ++ toString i ++ "]"))
      ++ "\x7d;"]
  else if net.op = 'r' then
    .ok []
  else if net.op = 'm' then
    .error .memoriesNotSupported
  else
    .error .internalError

/-- The net loop of `_to_verilog_combinational`: lines printed before the
first failing net, paired with the error if one was raised.  The trailing
blank line is printed only when the loop finishes. -/
def combLoop : List LogicNet → List String × Option VerilogErr
  | [] => ([""], none)
  | net :: rest =>
    match emitNet net with
    | .ok ls => let r := combLoop rest; (ls ++ r.1, r.2)
    | .error e => ([], some e)

/-- The lines one net contributes when it does not fail (none for a
register), used to state what the net loop emits on a successful run. -/
def emitLines (net : LogicNet) : List String :=
  match emitNet net with
  | .ok ls => ls
  | .error _ => []

/-- The constant-wire assigns printed first by
`_to_verilog_combinational`. -/
def constAssignLines (block : Block) : List String :=
  (block.subsetBy WireKind.isConst).map (fun c =>
    "    assign " ++ c.name ++ " = " ++ toString c.constVal ++ ";")

/-- `_to_verilog_combinational`: constant assigns, then the net loop. -/
def _to_verilog_combinational (block : Block) : List String × Option VerilogErr :=
  let r := combLoop block.logic
  (constAssignLines block ++ r.1, r.2)

/-- `_to_verilog_header`. -/
def _to_verilog_header (block : Block) : List String :=
  let io_list := (block.subsetBy (fun k => k.isInput || k.isOutput)).map WireV.name ++ ["clk"]
  let inputs := block.subsetBy WireKind.isInput
  let outputs := block.subsetBy WireKind.isOutput
  let registers := block.subsetBy WireKind.isRegister
  let wires := block.subsetBy (fun k => !(k.isInput || k.isOutput || k.isRegister))
  ["module toplevel(" ++ String.intercalate ", " io_list ++ ");"]
    ++ inputs.map (fun w => "    input" ++ _verilog_vector_decl w ++ " " ++ w.name ++ ";")
    ++ outputs.map (fun w => "    output" ++ _verilog_vector_decl w ++ " " ++ w.name ++ ";")
    ++ [""]
    ++ registers.map (fun w => "    reg" ++ _verilog_vector_decl w ++ " " ++ w.name ++ ";")
    ++ wires.map (fun w => "    wire" ++ _verilog_vector_decl w ++ " " ++ w.name ++ ";")
    ++ [""]

/-- `_to_verilog_sequential`. -/
def _to_verilog_sequential (block : Block) : List String :=
  ["    always @( posedge clk )", "    begin"]
    ++ (block.logic.filter (fun net => net.op = 'r')).map (fun net =>
         "        " ++ net.dname ++ " <= " ++ net.aname 0 ++ ";")
    ++ ["    end"]

/-- `_to_verilog_footer` (a `print` of a string that itself ends in a
newline, hence a final empty line). -/
def _to_verilog_footer : List String :=
  ["endmodule", ""]

/-- `output_to_verilog`: the lines written to the file, in order, paired
with the error raised by the combinational pass if any.  The header is
printed before the combinational pass runs, so on error the lines written
so far are the header plus the combinational lines before the failure. -/
def output_to_verilog (block : Block) : List String × Option VerilogErr :=
  let hdr := _to_verilog_header block
  let comb := _to_verilog_combinational block
  match comb.2 with
  | some e => (hdr ++ comb.1, some e)
  | none => (hdr ++ comb.1 ++ _to_verilog_sequential block ++ _to_verilog_footer, none)

/-- A node key of the trivial-graph `nodes` dict: a wirevector or a net. -/
inductive GNode where
  | wireN (w : WireV)
  | netN (n : LogicNet)
  deriving Repr, DecidableEq

/-- Mutable state of `output_to_trivialgraph`: the `nodes` dict (as an
insertion-ordered association list to `(uid, label)`), the `uid` counter,
the `edges` set (membership-guarded list) and the `edge_names` dict (an
association list consulted front-first, so prepending shadows). -/
structure TGState where
  nodes : List (GNode × Nat × String)
  uid : Nat
  edges : List (Nat × Nat)
  edge_names : List ((Nat × Nat) × String)
  deriving Repr

/-- Initial graph state (`nodes = {}`, `uid = [1]`, empty edge set). -/
def TGState.init : TGState := ⟨[], 1, [], []⟩

/-- Lookup in the `nodes` dict. -/
def TGState.lookupNode (s : TGState) (x : GNode) : Option (Nat × String) :=
  (s.nodes.find? (fun e => e.1 = x)).map (·.2)

/-- `add_node`. -/
def TGState.add_node (s : TGState) (x : GNode) (label : String) : TGState :=
  { s with nodes := s.nodes ++ [(x, s.uid, label)], uid := s.uid + 1 }

/-- `producer`: the first net having `w` among its `dests`, else a fresh
`???` node for `w` itself. -/
def producer (block : Block) (w : WireV) (s : TGState) : GNode × TGState :=
  match block.logic.find? (fun net => w ∈ net.dests) with
  | some net => (.netN net, s)
  | none => (.wireN w, s.add_node (.wireN w) "???")

/-- `consumer`: the first net having `w` among its `args`, else a fresh
`???` node for `w` itself. -/
def consumer (block : Block) (w : WireV) (s : TGState) : GNode × TGState :=
  match block.logic.find? (fun net => w ∈ net.args) with
  | some net => (.netN net, s)
  | none => (.wireN w, s.add_node (.wireN w) "???")

/-- Python's `str.startswith`, on the character lists (the library
`String.startsWith` is not kernel-reducible, so concrete witnesses could
not be evaluated with it). -/
def strStartsWith (s p : String) : Bool :=
  p.data.isPrefixOf s.data

/-- The `hasattr(frm, 'name')` test of `add_edge`: a net has no `name`
attribute, so it gets the empty label; a wire whose name starts with
`tmp` also does, otherwise the label is the wire's name. -/
def edgeLabelOf (frm : GNode) : String :=
  match frm with
  | .wireN w => if strStartsWith w.name "tmp" then "" else w.name
  | .netN _ => ""

/-- The `if frm not in nodes: frm = producer(frm)` step of `add_edge`
(nets are always in `nodes`, so only the wire case can miss). -/
def fixFrm (block : Block) (frm : GNode) (s : TGState) : GNode × TGState :=
  if (s.lookupNode frm).isSome then (frm, s)
  else match frm with
    | .wireN w => producer block w s
    | .netN n => (.netN n, s)

/-- The `if to not in nodes: to = consumer(to)` step of `add_edge`. -/
def fixTo (block : Block) (toE : GNode) (s : TGState) : GNode × TGState :=
  if (s.lookupNode toE).isSome then (toE, s)
  else match toE with
    | .wireN w => consumer block w s
    | .netN n => (.netN n, s)

/-- The tail of `add_edge`: put the id pair into the `edges` set and,
when the label is non-empty, bind it in `edge_names`. -/
def recordEdge (s : TGState) (key : Nat × Nat) (edge_label : String) : TGState :=
  let s' := { s with edges := if key ∈ s.edges then s.edges
                              else s.edges ++ [key] }
  if edge_label = "" then s'
  else { s' with edge_names := (key, edge_label) :: s'.edge_names }

/-- `add_edge`: the label comes from the original `frm` endpoint;
endpoints missing from `nodes` are replaced via `producer`/`consumer`;
then the edge is recorded under the endpoints' node-table ids. -/
def add_edge (block : Block) (frm toE : GNode) (s : TGState) : TGState :=
  let edge_label := edgeLabelOf frm
  let fs := fixFrm block frm s
  let ts := fixTo block toE fs.2
  let frm_id := ((ts.2.lookupNode fs.1).getD (0, "")).1
  let to_id := ((ts.2.lookupNode ts.1).getD (0, "")).1
  recordEdge ts.2 (frm_id, to_id) edge_label

/-- The node-creation pass of `output_to_trivialgraph`: all nets (label =
op plus stringified parameter), then Input, Output and Const wires. -/
def addAllNodes (block : Block) (s : TGState) : TGState :=
  let s := block.logic.foldl (fun s net =>
    s.add_node (.netN net)
      (String.singleton net.op
        ++ (match net.op_param with | some p => toString p | none => ""))) s
  let s := (block.subsetBy WireKind.isInput).foldl (fun s w =>
    s.add_node (.wireN w) w.name) s
  let s := (block.subsetBy WireKind.isOutput).foldl (fun s w =>
    s.add_node (.wireN w) w.name) s
  (block.subsetBy WireKind.isConst).foldl (fun s w =>
    s.add_node (.wireN w) (toString w.constVal)) s

/-- The edge-creation pass: for every net, an edge from each argument
wire into the net and from the net to each destination wire. -/
def addAllEdges (block : Block) (s : TGState) : TGState :=
  block.logic.foldl (fun s net =>
    let s := net.args.foldl (fun s arg => add_edge block (.wireN arg) (.netN net) s) s
    net.dests.foldl (fun s dest => add_edge block (.netN net) (.wireN dest) s) s) s

/-- Lexicographic order on `Nat` pairs as a `Bool` relation, for the
`sorted(edges)` pass. -/
def pairLe (a b : Nat × Nat) : Bool :=
  a.1 < b.1 || (a.1 = b.1 && a.2 ≤ b.2)

/-- The edge table printed by `output_to_trivialgraph`: the deduplicated
id pairs in sorted order, each with `edge_names.get((frm, to), '')`. -/
def tgEdgeTable (block : Block) : List (Nat × Nat × String) :=
  let s := addAllEdges block (addAllNodes block TGState.init)
  (List.insertionSort (fun a b => pairLe a b = true) s.edges).map (fun p =>
    (p.1, p.2, (((s.edge_names.find? (fun q => q.1 = p)).map (·.2)).getD "")))

/-- `output_to_trivialgraph`: node lines (`sorted(nodes.values())` is the
insertion order, since uids increase), a `#` separator, then the edge
table lines. -/
def output_to_trivialgraph (block : Block) : List String :=
  let s := addAllEdges block (addAllNodes block TGState.init)
  (s.nodes.map (fun e => toString e.2.1 ++ " " ++ e.2.2))
    ++ ["#"]
    ++ (tgEdgeTable block).map (fun e => toString e.1 ++ " " ++ toString e.2.1
          ++ (if e.2.2 = "" then " " else " " ++ e.2.2))

/-- A block containing a memory (`'m'`) net, on which the Verilog
emitter raises its unsupported-operation error. -/
def memBlock : Block :=
  ⟨[⟨"a", 1, .input⟩, ⟨"c", 1, .output⟩],
   [⟨'m', none, [⟨"a", 1, .input⟩], [⟨"c", 1, .output⟩]⟩]⟩

/-- The spec's end-to-end example circuit (`c = a & b`, with the and
net feeding `c` through a temporary wire), used as a concrete witness. -/
def andBlock : Block :=
  ⟨[⟨"a", 1, .input⟩, ⟨"b", 1, .input⟩, ⟨"c", 1, .output⟩],
   [⟨'&', none, [⟨"a", 1, .input⟩, ⟨"b", 1, .input⟩], [⟨"tmp1", 1, .plain⟩]⟩,
    ⟨'w', none, [⟨"tmp1", 1, .plain⟩], [⟨"c", 1, .output⟩]⟩]⟩

/-- A buffer net `x = a`. -/
def wNet1 : LogicNet :=
  ⟨'w', none, [⟨"a", 1, .input⟩], [⟨"x", 1, .plain⟩]⟩

/-- A buffer net `y = b`. -/
def wNet2 : LogicNet :=
  ⟨'w', none, [⟨"b", 1, .input⟩], [⟨"y", 1, .plain⟩]⟩

/-- A circuit with two buffer nets, enumerated as `[wNet1, wNet2]`. -/
def vBlockA : Block :=
  ⟨[⟨"a", 1, .input⟩, ⟨"b", 1, .input⟩, ⟨"x", 1, .plain⟩, ⟨"y", 1, .plain⟩],
   [wNet1, wNet2]⟩

/-- The same circuit — the same wirevectors and the same *set* of nets —
with the net set enumerated in the other order, as an unordered Python
set may on another run. -/
def vBlockB : Block :=
  ⟨[⟨"a", 1, .input⟩, ⟨"b", 1, .input⟩, ⟨"x", 1, .plain⟩, ⟨"y", 1, .plain⟩],
   [wNet2, wNet1]⟩

/-- Provenance invariant for `edge_names`: every binding's label is the
name of some net argument wire whose name does not start with `tmp`. -/
def ENInv (block : Block) (en : List ((Nat × Nat) × String)) : Prop :=
  ∀ p ∈ en, ∃ n ∈ block.logic, ∃ w ∈ n.args,
    p.2 = w.name ∧ strStartsWith w.name "tmp" = false

/-- Claim C1: a `.names` command with cover rows `1-0 1` and `-11 1` over
signals `s0 s1 sel out` decodes to the connection `out <<= (s0 & ~sel) |
(s1 & sel)`, which is exactly the 2-way select with condition the third
signal `sel`, true-branch the second signal `s1` and false-branch the
first signal `s0`, assigned to the last signal `out`. -/
theorem C1_mux_decode (s0 s1 sel outw : String) (clkSet : List String)
    (v : String → Bool) :
    extract_cover clkSet [s0, s1, sel, outw] ["1-0", "1", "-11", "1"]
      = .ok (clkSet, [⟨outw,
          .orE (.andE (.var s0) (.notE (.var sel)))
               (.andE (.var s1) (.var sel))⟩]) ∧
    (BExpr.orE (.andE (.var s0) (.notE (.var sel)))
               (.andE (.var s1) (.var sel))).eval v
      = (if v sel then v s1 else v s0) := by
  constructor
  · simp [extract_cover]
  · simp only [BExpr.eval]
    cases hs : v sel <;> cases v s0 <;> cases v s1 <;> simp

/-- Claim C2 counterexample: on a select net with destination `d` and
arguments `a0 a1 a2` (in positions 1, 2, 3), the emitter prints
`assign d = a0 ? a2 : a1;` — the ternary condition is the FIRST argument
`a0` — and not `assign d = a2 ? a1 : a0;`, the line the claim (condition
from the third position, branches from the first two) would require. -/
theorem C2_counterexample :
    emitNet ⟨'x', none, [⟨"a0", 1, .plain⟩, ⟨"a1", 1, .plain⟩, ⟨"a2", 1, .plain⟩],
        [⟨"d", 1, .plain⟩]⟩
      = .ok ["    assign d = a0 ? a2 : a1;"] ∧
    "    assign d = a0 ? a2 : a1;" ≠ "    assign d = a2 ? a1 : a0;" := by
  constructor
  · rfl
  · decide

/-- Claim C2 (amended): for every select (`'x'`) net, the emitter prints a
ternary whose condition operand is the FIRST argument, whose true-branch
is the THIRD argument and whose false-branch is the SECOND argument
(branch order reversed relative to the argument order). -/
theorem C2_select_ternary (d a0 a1 a2 : WireV) (p : Option (List Nat)) :
    emitNet ⟨'x', p, [a0, a1, a2], [d]⟩
      = .ok ["    assign " ++ d.name ++ " = " ++ a0.name ++ " ? "
          ++ a2.name ++ " : " ++ a1.name ++ ";"] := by
  simp [emitNet, LogicNet.dname, LogicNet.aname]

/-- Claim C4: any cover-row list other than the eight tabulated literal
patterns makes `extract_cover` raise the unsupported-cover error. -/
theorem C4_closed_world (clkSet netio cover : List String)
    (h : cover ∉ coverTable) :
    extract_cover clkSet netio cover = .error .unsupportedCover := by
  simp only [coverTable, List.mem_cons, List.not_mem_nil, or_false, not_or] at h
  obtain ⟨h1, h2, h3, h4, h5, h6, h7, h8⟩ := h
  unfold extract_cover
  rw [if_neg h1, if_neg h2, if_neg h3, if_neg h4, if_neg h5, if_neg h6,
    if_neg h7, if_neg h8]

/-- Claim C4 witness: cover rows `00 1` are not in the table and fail. -/
theorem C4_closed_world_witness :
    ["00", "1"] ∉ coverTable ∧
    extract_cover [] ["a", "b", "c"] ["00", "1"] = .error .unsupportedCover :=
  ⟨by decide, C4_closed_world [] ["a", "b", "c"] ["00", "1"] (by decide)⟩

/-- Claim C6: flop extraction (async form, with reset formal `R`) creates
a `Register` wire whose name differs from `Q`, feeds its next-state from
`D`, connects `Q` from the register, records `C` in the flop clock set,
and is entirely independent of the reset operand `R`. -/
theorem C6_flop_extraction (ffs : List String) (C R R' D Q : String) :
    (extract_flop_async ffs C R D Q).reg.kind = .register ∧
    (extract_flop_async ffs C R D Q).reg.name ≠ Q ∧
    (extract_flop_async ffs C R D Q).regNext = D ∧
    (extract_flop_async ffs C R D Q).qConn
      = (Q, (extract_flop_async ffs C R D Q).reg.name) ∧
    C ∈ (extract_flop_async ffs C R D Q).ffClkSet ∧
    extract_flop_async ffs C R D Q = extract_flop_async ffs C R' D Q := by
  refine ⟨rfl, ?_, rfl, rfl, ?_, rfl⟩
  · intro h
    have hl := congrArg String.length h
    simp [extract_flop_async, extract_flop, String.length_append] at hl
    exact absurd hl (by decide)
  · by_cases hC : C ∈ ffs
    · simp [extract_flop_async, extract_flop, setAdd, hC]
    · simp [extract_flop_async, extract_flop, setAdd, hC]

/-- Claim C10: every register synthesized by `extract_flop` is exactly
1 bit wide and named `Q + "_reg"`; two flop commands sharing the same `Q`
therefore produce registers with identical names. -/
theorem C10_reg_name_width (ffs₁ ffs₂ : List String) (C₁ C₂ D₁ D₂ Q : String) :
    (extract_flop ffs₁ C₁ D₁ Q).reg.bitwidth = 1 ∧
    (extract_flop ffs₁ C₁ D₁ Q).reg.name = Q ++ "_reg" ∧
    (extract_flop ffs₁ C₁ D₁ Q).reg.name = (extract_flop ffs₂ C₂ D₂ Q).reg.name :=
  ⟨rfl, rfl, rfl⟩

lemma mem_setAdd_self (s : List String) (x : String) : x ∈ setAdd s x := by
  unfold setAdd
  split
  · assumption
  · exact List.mem_append_right _ (List.mem_singleton.mpr rfl)

lemma clk_foldl_mem (keys : List String) (cs : List String)
    (h : "clk" ∈ keys ∨ "clk" ∈ cs) :
    "clk" ∈ keys.foldl (fun cs n => if n = "clk" then setAdd cs n else cs) cs := by
  induction keys generalizing cs with
  | nil => simpa using h
  | cons k ks ih =>
    rw [List.foldl_cons]
    by_cases hk : k = "clk"
    · subst hk
      exact ih _ (Or.inr (by simpa using mem_setAdd_self cs "clk"))
    · rw [if_neg hk]
      rcases h with h | h
      · rcases List.mem_cons.mp h with h | h
        · exact absurd h.symm hk
        · exact ih _ (Or.inl h)
      · exact ih _ (Or.inr h)

lemma bitName_ne_clk (base : String) (i : Nat) : bitName base i ≠ "clk" := by
  intro h
  have hm : ('[' : Char) ∈ (bitName base i).data := by
    simp only [bitName, String.data_append, List.mem_append]
    exact Or.inl (Or.inl (Or.inr (by decide)))
  rw [h] at hm
  exact absurd hm (by decide)

lemma inputChunk_name_ne_clk (m : Bool) (sn : List String) (n : String)
    (w : WireV) (hw : w ∈ inputChunk m sn n) : w.name ≠ "clk" := by
  unfold inputChunk at hw
  by_cases hn : n = "clk"
  · simp [hn] at hw
  · rw [if_neg hn] at hw
    split at hw
    · rw [List.mem_singleton] at hw
      subst hw
      exact hn
    · rcases List.mem_cons.mp hw with hw | hw
      · subst hw
        exact hn
      · obtain ⟨i, _, hi⟩ := List.mem_map.mp hw
        subst hi
        exact bitName_ne_clk n i

/-- Claim C3: evaluation of `extract_outputs` on the output list
`y[0] y[1] y[2]`.  With merging enabled it creates exactly one 3-bit
`Output` named `y` plus three internal 1-bit wires `y[0] y[1] y[2]`, fed
into `y` by a concat in index order — as the claim states.  With merging
disabled, however, it creates a single 1-bit `Output` named `y` (the loop
runs once per stripped `Counter` key), NOT three independent 1-bit
outputs: the disabled-merging half of the claim fails on the code. -/
theorem C3_vector_outputs :
    extract_outputs true ["y[0]", "y[1]", "y[2]"]
      = ([⟨"y", 3, .output⟩, ⟨"y[0]", 1, .plain⟩, ⟨"y[1]", 1, .plain⟩,
          ⟨"y[2]", 1, .plain⟩],
         [("y", ["y[0]", "y[1]", "y[2]"])]) ∧
    extract_outputs false ["y[0]", "y[1]", "y[2]"]
      = ([⟨"y", 1, .output⟩], []) := by
  constructor
  · rfl
  · rfl

/-- Claim C5 counterexample: a name `clk` in the `.outputs` list is NOT
special-cased — `extract_outputs` creates an `Output` hardware wire
named `clk` (and records nothing in any clock set). -/
theorem C5_counterexample :
    (extract_outputs true ["clk"]).1 = [⟨"clk", 1, WireKind.output⟩] := rfl

/-- Claim C5 (amended): only the `.inputs` list special-cases the
reserved name `clk`: a `clk` input is recorded in the clock set and no
wire named `clk` is created by `extract_inputs`; a `clk` in the
`.outputs` list instead produces an ordinary `Output` wire named `clk`. -/
theorem C5_clk_inputs (merge : Bool) (clkSet : List String)
    (input_list output_list : List String) :
    ("clk" ∈ input_list →
      "clk" ∈ (extract_inputs merge clkSet input_list).1 ∧
      ∀ w ∈ (extract_inputs merge clkSet input_list).2, w.name ≠ "clk") ∧
    ("clk" ∈ output_list →
      ∃ w ∈ (extract_outputs merge output_list).1,
        w.name = "clk" ∧ w.kind = .output) := by
  constructor
  · intro hin
    have hkey : "clk" ∈ (input_list.map stripIndex).dedup :=
      List.mem_dedup.mpr (List.mem_map.mpr ⟨"clk", hin, rfl⟩)
    constructor
    · exact clk_foldl_mem _ _ (Or.inl hkey)
    · intro w hw
      obtain ⟨l, hl, hwl⟩ := List.mem_flatten.mp hw
      obtain ⟨n, _, hn⟩ := List.mem_map.mp hl
      subst hn
      exact inputChunk_name_ne_clk _ _ _ _ hwl
  · intro hout
    have hkey : "clk" ∈ (output_list.map stripIndex).dedup :=
      List.mem_dedup.mpr (List.mem_map.mpr ⟨"clk", hout, rfl⟩)
    have hchunk : ∃ w ∈ outputChunk merge (output_list.map stripIndex) "clk",
        w.name = "clk" ∧ w.kind = .output := by
      by_cases h : (!merge
          || decide ((output_list.map stripIndex).count "clk" = 1)) = true
      · exact ⟨⟨"clk", 1, .output⟩, by simp [outputChunk, h], rfl, rfl⟩
      · exact ⟨⟨"clk", (output_list.map stripIndex).count "clk", .output⟩,
          by simp [outputChunk, h], rfl, rfl⟩
    obtain ⟨w, hwmem, hwprop⟩ := hchunk
    exact ⟨w, List.mem_flatten.mpr
      ⟨_, List.mem_map.mpr ⟨"clk", hkey, rfl⟩, hwmem⟩, hwprop⟩

/-- Claim C5 witness: concrete instantiation of `C5_clk_inputs` at
inputs `a clk` and outputs `clk b`. -/
theorem C5_clk_inputs_witness :
    ("clk" ∈ (extract_inputs true [] ["a", "clk"]).1 ∧
      ∀ w ∈ (extract_inputs true [] ["a", "clk"]).2, w.name ≠ "clk") ∧
    (∃ w ∈ (extract_outputs true ["clk", "b"]).1,
      w.name = "clk" ∧ w.kind = .output) :=
  ⟨(C5_clk_inputs true [] ["a", "clk"] ["clk", "b"]).1 (by decide),
   (C5_clk_inputs true [] ["a", "clk"] ["clk", "b"]).2 (by decide)⟩

/-- Claim C7 counterexample: on `memBlock` the emitter does raise the
memory error, but only after the whole module header has been printed to
the file — the written output at the failure is non-empty, contradicting
the claim that the error is raised before any output bytes are written. -/
theorem C7_counterexample :
    (output_to_verilog memBlock).2 = some .memoriesNotSupported ∧
    (output_to_verilog memBlock).1
      = ["module toplevel(a, c, clk);", "    input a;", "    output c;",
         "", ""] ∧
    (output_to_verilog memBlock).1 ≠ [] := by
  exact ⟨rfl, rfl, by decide⟩

/-- Claim C7 (amended): when the emitter fails, the lines already written
to the sink are exactly the module header followed by the combinational
lines printed before the failing net — in particular the output is never
empty (the header's `module` line is always flushed first). -/
theorem C7_partial_output (block : Block)
    (h : (output_to_verilog block).2.isSome) :
    (output_to_verilog block).1
      = _to_verilog_header block ++ (_to_verilog_combinational block).1 ∧
    (output_to_verilog block).1 ≠ [] := by
  cases hc : (_to_verilog_combinational block).2 with
  | none =>
    simp only [output_to_verilog, hc, Option.isSome_none] at h
    exact absurd h (by decide)
  | some e =>
    have heq : output_to_verilog block
        = (_to_verilog_header block ++ (_to_verilog_combinational block).1,
           some e) := by
      simp only [output_to_verilog, hc]
    rw [heq]
    refine ⟨rfl, ?_⟩
    intro hnil
    have hh : _to_verilog_header block = [] := (List.append_eq_nil.mp hnil).1
    unfold _to_verilog_header at hh
    simp at hh

/-- Claim C7 witness: `C7_partial_output` instantiated at `memBlock`. -/
theorem C7_partial_output_witness :
    (output_to_verilog memBlock).1
      = _to_verilog_header memBlock ++ (_to_verilog_combinational memBlock).1 ∧
    (output_to_verilog memBlock).1 ≠ [] :=
  C7_partial_output memBlock (by rfl)

lemma combLoop_none (l : List LogicNet) :
    (combLoop l).2 = none ↔ ∀ net ∈ l, (emitNet net).toOption.isSome = true := by
  induction l with
  | nil => simp [combLoop]
  | cons net rest ih =>
    cases hE : emitNet net with
    | ok ls => simp [combLoop, hE, ih, Except.toOption]
    | error e => simp [combLoop, hE, Except.toOption]

lemma combLoop_ok (l : List LogicNet)
    (h : ∀ net ∈ l, (emitNet net).toOption.isSome = true) :
    combLoop l = ((l.map emitLines).flatten ++ [""], none) := by
  induction l with
  | nil => rfl
  | cons net rest ih =>
    cases hE : emitNet net with
    | error e =>
      have := h net (List.mem_cons_self net rest)
      rw [hE] at this
      simp [Except.toOption] at this
    | ok ls =>
      have hr := ih (fun n hn => h n (List.mem_cons_of_mem net hn))
      simp [combLoop, hE, hr, emitLines, List.append_assoc]

lemma combLoop_perm (l₁ l₂ : List LogicNet) (hp : l₁.Perm l₂)
    (h : (combLoop l₁).2 = none) :
    (combLoop l₂).2 = none ∧ (combLoop l₁).1.Perm (combLoop l₂).1 := by
  have h1 := (combLoop_none l₁).mp h
  have h2 : ∀ net ∈ l₂, (emitNet net).toOption.isSome = true :=
    fun n hn => h1 n (hp.mem_iff.mpr hn)
  rw [combLoop_ok l₁ h1, combLoop_ok l₂ h2]
  exact ⟨rfl, ((hp.map emitLines).flatten).append_right [""]⟩

/-- Claim C8 counterexample: `vBlockA` and `vBlockB` are the same
validated circuit — identical wirevectors and the same *set* of nets, a
permutation — yet `output_to_verilog` emits different bytes for them.
The emitter iterates Python sets with no `sorted()`, so the enumeration
order is a legitimate degree of freedom between two runs, and byte
identity fails. -/
theorem C8_counterexample :
    vBlockA.wirevectors = vBlockB.wirevectors ∧
    vBlockA.logic.Perm vBlockB.logic ∧
    output_to_verilog vBlockA ≠ output_to_verilog vBlockB :=
  ⟨rfl, List.Perm.swap wNet2 wNet1 [], by decide⟩

/-- Claim C8 (amended): emission is deterministic as a function of the
circuit *and* the enumeration order of its net set.  For two enumerations
of the same circuit (equal wirevectors, permuted net list) a successful
emission succeeds on both and produces the same lines up to order — the
header, constant assigns and footer are byte-identical and the per-net
lines are permuted with the nets — but not necessarily byte-identical
output, since `output_to_verilog` fixes no total order on its set
iteration. -/
theorem C8_emission_order (b₁ b₂ : Block)
    (hw : b₁.wirevectors = b₂.wirevectors) (hp : b₁.logic.Perm b₂.logic)
    (hok : (_to_verilog_combinational b₁).2 = none) :
    (output_to_verilog b₁).2 = none ∧ (output_to_verilog b₂).2 = none ∧
    (output_to_verilog b₁).1.Perm (output_to_verilog b₂).1 := by
  obtain ⟨he2, hperm⟩ := combLoop_perm b₁.logic b₂.logic hp hok
  have he2' : (_to_verilog_combinational b₂).2 = none := he2
  have hout1 : output_to_verilog b₁
      = (_to_verilog_header b₁ ++ (_to_verilog_combinational b₁).1
          ++ _to_verilog_sequential b₁ ++ _to_verilog_footer, none) := by
    simp only [output_to_verilog, hok]
  have hout2 : output_to_verilog b₂
      = (_to_verilog_header b₂ ++ (_to_verilog_combinational b₂).1
          ++ _to_verilog_sequential b₂ ++ _to_verilog_footer, none) := by
    simp only [output_to_verilog, he2']
  have hhdr : _to_verilog_header b₁ = _to_verilog_header b₂ := by
    unfold _to_verilog_header Block.subsetBy
    rw [hw]
  have hconst : constAssignLines b₁ = constAssignLines b₂ := by
    unfold constAssignLines Block.subsetBy
    rw [hw]
  have hcomb : (_to_verilog_combinational b₁).1.Perm
      (_to_verilog_combinational b₂).1 := by
    have h1 : (_to_verilog_combinational b₁).1
        = constAssignLines b₁ ++ (combLoop b₁.logic).1 := rfl
    have h2 : (_to_verilog_combinational b₂).1
        = constAssignLines b₂ ++ (combLoop b₂.logic).1 := rfl
    rw [h1, h2, hconst]
    exact List.Perm.append_left _ hperm
  have hseq : (_to_verilog_sequential b₁).Perm (_to_verilog_sequential b₂) := by
    unfold _to_verilog_sequential
    exact List.Perm.append_right _
      (List.Perm.append_left _ ((hp.filter _).map _))
  rw [hout1, hout2]
  refine ⟨rfl, rfl, ?_⟩
  rw [hhdr]
  exact List.Perm.append_right _
    (List.Perm.append (List.Perm.append_left _ hcomb) hseq)

/-- Claim C8 witness: `C8_emission_order` instantiated at the two
enumerations `vBlockA`, `vBlockB` of the two-buffer circuit. -/
theorem C8_emission_order_witness :
    (output_to_verilog vBlockA).2 = none ∧
    (output_to_verilog vBlockB).2 = none ∧
    (output_to_verilog vBlockA).1.Perm (output_to_verilog vBlockB).1 :=
  C8_emission_order vBlockA vBlockB rfl (List.Perm.swap wNet2 wNet1 []) (by rfl)


lemma foldl_preserve {α σ : Type _} (P : σ → Prop) (f : σ → α → σ)
    (l : List α) (hf : ∀ s a, a ∈ l → P s → P (f s a)) :
    ∀ s, P s → P (l.foldl f s) := by
  induction l with
  | nil => intro s hs; simpa using hs
  | cons a l ih =>
    intro s hs
    rw [List.foldl_cons]
    exact ih (fun s b hb h => hf s b (List.mem_cons_of_mem a hb) h) _
      (hf s a (List.mem_cons_self a l) hs)

lemma producer_edges (block : Block) (w : WireV) (s : TGState) :
    (producer block w s).2.edges = s.edges
      ∧ (producer block w s).2.edge_names = s.edge_names := by
  unfold producer
  split
  · exact ⟨rfl, rfl⟩
  · exact ⟨rfl, rfl⟩

lemma consumer_edges (block : Block) (w : WireV) (s : TGState) :
    (consumer block w s).2.edges = s.edges
      ∧ (consumer block w s).2.edge_names = s.edge_names := by
  unfold consumer
  split
  · exact ⟨rfl, rfl⟩
  · exact ⟨rfl, rfl⟩

lemma fixFrm_edges (block : Block) (frm : GNode) (s : TGState) :
    (fixFrm block frm s).2.edges = s.edges
      ∧ (fixFrm block frm s).2.edge_names = s.edge_names := by
  unfold fixFrm
  split
  · exact ⟨rfl, rfl⟩
  · match frm with
    | .wireN w => exact producer_edges block w s
    | .netN n => exact ⟨rfl, rfl⟩

lemma fixTo_edges (block : Block) (toE : GNode) (s : TGState) :
    (fixTo block toE s).2.edges = s.edges
      ∧ (fixTo block toE s).2.edge_names = s.edge_names := by
  unfold fixTo
  split
  · exact ⟨rfl, rfl⟩
  · match toE with
    | .wireN w => exact consumer_edges block w s
    | .netN n => exact ⟨rfl, rfl⟩

lemma recordEdge_edges (s : TGState) (key : Nat × Nat) (lab : String) :
    (recordEdge s key lab).edges
      = (if key ∈ s.edges then s.edges else s.edges ++ [key]) := by
  by_cases h : lab = "" <;> simp [recordEdge, h]

lemma recordEdge_edge_names (s : TGState) (key : Nat × Nat) (lab : String) :
    (recordEdge s key lab).edge_names
      = (if lab = "" then s.edge_names else (key, lab) :: s.edge_names) := by
  unfold recordEdge
  by_cases h : lab = ""
  · rw [if_pos h, if_pos h]
  · rw [if_neg h, if_neg h]

lemma nodup_guard_insert (key : Nat × Nat) (l : List (Nat × Nat))
    (h : l.Nodup) :
    (if key ∈ l then l else l ++ [key]).Nodup := by
  split
  · exact h
  · refine List.nodup_append.mpr ⟨h, List.nodup_singleton key, ?_⟩
    intro a ha hb
    rw [List.mem_singleton] at hb
    subst hb
    exact absurd ha (by assumption)

lemma add_edge_inv (block : Block) (frm toE : GNode) (s : TGState)
    (h1 : s.edges.Nodup) (h2 : ENInv block s.edge_names)
    (hfrm : ∀ w : WireV, frm = .wireN w → ∃ n ∈ block.logic, w ∈ n.args) :
    (add_edge block frm toE s).edges.Nodup
      ∧ ENInv block (add_edge block frm toE s).edge_names := by
  unfold add_edge
  have hf := fixFrm_edges block frm s
  have ht := fixTo_edges block toE (fixFrm block frm s).2
  constructor
  · rw [recordEdge_edges, ht.1, hf.1]
    exact nodup_guard_insert _ _ h1
  · rw [recordEdge_edge_names, ht.2, hf.2]
    by_cases hl : edgeLabelOf frm = ""
    · rw [if_pos hl]
      exact h2
    · rw [if_neg hl]
      intro p hp
      rcases List.mem_cons.mp hp with hp | hp
      · subst hp
        match frm, hl, hfrm with
        | .netN n, hl, _ => exact absurd rfl hl
        | .wireN w, hl, hfrm =>
          obtain ⟨n, hn, hw⟩ := hfrm w rfl
          by_cases hw' : strStartsWith w.name "tmp"
          · exact absurd (by simp [edgeLabelOf, hw']) hl
          · refine ⟨n, hn, w, hw, ?_, Bool.eq_false_iff.mpr hw'⟩
            simp [edgeLabelOf, hw']
      · exact h2 p hp

lemma addAllNodes_edges (block : Block) (s : TGState) :
    (addAllNodes block s).edges = s.edges
      ∧ (addAllNodes block s).edge_names = s.edge_names := by
  have gen : ∀ {α : Type} (g : TGState → α → TGState),
      (∀ t a, (g t a).edges = t.edges ∧ (g t a).edge_names = t.edge_names) →
      ∀ (l : List α) (t : TGState),
      (l.foldl g t).edges = t.edges
        ∧ (l.foldl g t).edge_names = t.edge_names := by
    intro α g hg l
    induction l with
    | nil => intro t; exact ⟨rfl, rfl⟩
    | cons a l ih =>
      intro t
      rw [List.foldl_cons]
      exact ⟨(ih (g t a)).1.trans (hg t a).1, (ih (g t a)).2.trans (hg t a).2⟩
  have g1 := gen (fun s net =>
      s.add_node (.netN net) (String.singleton net.op
        ++ (match net.op_param with | some p => toString p | none => "")))
    (fun t a => ⟨rfl, rfl⟩) block.logic s
  have g2 := gen (fun s w => s.add_node (.wireN w) w.name)
    (fun t a => ⟨rfl, rfl⟩) (block.subsetBy WireKind.isInput)
    (block.logic.foldl (fun s net =>
      s.add_node (.netN net) (String.singleton net.op
        ++ (match net.op_param with | some p => toString p | none => ""))) s)
  have g3 := gen (fun s w => s.add_node (.wireN w) w.name)
    (fun t a => ⟨rfl, rfl⟩) (block.subsetBy WireKind.isOutput)
    ((block.subsetBy WireKind.isInput).foldl
      (fun s w => s.add_node (.wireN w) w.name)
      (block.logic.foldl (fun s net =>
        s.add_node (.netN net) (String.singleton net.op
          ++ (match net.op_param with | some p => toString p | none => ""))) s))
  have g4 := gen (fun s w => s.add_node (.wireN w) (toString w.constVal))
    (fun t a => ⟨rfl, rfl⟩) (block.subsetBy WireKind.isConst)
    ((block.subsetBy WireKind.isOutput).foldl
      (fun s w => s.add_node (.wireN w) w.name)
      ((block.subsetBy WireKind.isInput).foldl
        (fun s w => s.add_node (.wireN w) w.name)
        (block.logic.foldl (fun s net =>
          s.add_node (.netN net) (String.singleton net.op
            ++ (match net.op_param with | some p => toString p | none => ""))) s)))
  exact ⟨((g4.1.trans g3.1).trans g2.1).trans g1.1,
         ((g4.2.trans g3.2).trans g2.2).trans g1.2⟩

lemma addAllEdges_inv (block : Block) (s : TGState)
    (h1 : s.edges.Nodup) (h2 : ENInv block s.edge_names) :
    (addAllEdges block s).edges.Nodup
      ∧ ENInv block (addAllEdges block s).edge_names := by
  unfold addAllEdges
  refine foldl_preserve
    (fun t : TGState => t.edges.Nodup ∧ ENInv block t.edge_names) _ _ ?_ _
    ⟨h1, h2⟩
  intro t net hnet h
  refine foldl_preserve
    (fun t : TGState => t.edges.Nodup ∧ ENInv block t.edge_names) _ _ ?_ _
    (foldl_preserve
      (fun t : TGState => t.edges.Nodup ∧ ENInv block t.edge_names) _ _ ?_ _ h)
  · intro t dest _ h
    exact add_edge_inv block (.netN net) (.wireN dest) t h.1 h.2
      (fun w hw => nomatch hw)
  · intro t arg harg h
    exact add_edge_inv block (.wireN arg) (.netN net) t h.1 h.2
      (fun w hw => ⟨net, hnet, (GNode.wireN.inj hw) ▸ harg⟩)

/-- Claim C9: in the graph emitter's edge table, the id pairs are
pairwise distinct (the `edges` set deduplicates), and an edge line has a
non-empty label only when that label is the user-assigned name of a
source wire (an argument wire of some net, whose name does not start with
the synthetic `tmp` prefix); adjacencies whose source endpoint is an
operation node, or a `tmp`-named temporary wire, never contribute a
label. -/
theorem C9_edge_table (block : Block) :
    ((tgEdgeTable block).map (fun e => (e.1, e.2.1))).Nodup ∧
    ∀ e ∈ tgEdgeTable block, e.2.2 = "" ∨
      ∃ n ∈ block.logic, ∃ w ∈ n.args,
        e.2.2 = w.name ∧ strStartsWith w.name "tmp" = false := by
  have hn0 := addAllNodes_edges block TGState.init
  have hinit : (addAllNodes block TGState.init).edges.Nodup
      ∧ ENInv block (addAllNodes block TGState.init).edge_names := by
    rw [hn0.1, hn0.2]
    exact ⟨List.nodup_nil, fun p hp => absurd hp (List.not_mem_nil p)⟩
  have hinv := addAllEdges_inv block (addAllNodes block TGState.init)
    hinit.1 hinit.2
  constructor
  · have htab : (tgEdgeTable block).map (fun e => (e.1, e.2.1))
        = List.insertionSort (fun a b => pairLe a b = true)
            (addAllEdges block (addAllNodes block TGState.init)).edges := by
      unfold tgEdgeTable
      rw [List.map_map]
      exact List.map_id' _
    rw [htab]
    exact (List.perm_insertionSort _ _).symm.nodup hinv.1
  · intro e he
    simp only [tgEdgeTable] at he
    obtain ⟨p, hp, rfl⟩ := List.mem_map.mp he
    cases hq : ((addAllEdges block (addAllNodes block TGState.init)).edge_names.find?
        (fun q => q.1 = p)) with
    | none =>
      left
      simp [hq]
    | some q =>
      right
      have hqmem := List.mem_of_find?_eq_some hq
      obtain ⟨n, hn, w, hw, hname, htmp⟩ := hinv.2 q hqmem
      refine ⟨n, hn, w, hw, ?_, htmp⟩
      simp [hq, hname]

/-- Claim C9 witness: `C9_edge_table` instantiated at the `andBlock`
example, on its labeled edge from input wire `a` into the and net. -/
theorem C9_edge_table_witness :
    ((tgEdgeTable andBlock).map (fun e => (e.1, e.2.1))).Nodup ∧
    (((3, 1, "a") : Nat × Nat × String).2.2 = "" ∨
      ∃ n ∈ andBlock.logic, ∃ w ∈ n.args,
        ((3, 1, "a") : Nat × Nat × String).2.2 = w.name
          ∧ strStartsWith w.name "tmp" = false) :=
  ⟨(C9_edge_table andBlock).1, (C9_edge_table andBlock).2 (3, 1, "a") (by decide)⟩
